import Mathlib

/-!
# Verification of the csv2api query engine

A shallow embedding of the query utilities of `src/queryUtils.js` (re-exported
through `src/index.js`) and of the snapshot-holding `CsvLoader` of
`src/csvLoader.js`, together with proofs of the specification's claims about
them.

Modelling conventions:

* A CSV row is a JavaScript object produced by `csv-parser`: an ordered
  key/value record whose values are strings, possibly `null`/absent.  We model
  it as an association list `List (String × Option String)`; a key that is
  absent and a key whose value is `null` behave identically in every operation
  of the source (`row[k]` yields `undefined` resp. `null`, and the code always
  tests `=== null || === undefined` together), so both are `none` under lookup.
* JavaScript numbers are modelled as exact rationals `ℚ`.  The model is exact
  for the integer and short-decimal values the code manipulates; IEEE-754
  rounding, `Infinity` and the non-finite results of float arithmetic are
  outside the model (`Number("Infinity")` is treated as non-numeric here).
* `String.prototype.toLowerCase` is modelled per-character with `Char.toLower`
  (exact on ASCII), and `localeCompare` as lexicographic comparison of the
  lowered strings; the ICU collation order differs on exotic strings but both
  are total orders that agree on equality of lowered ASCII strings.
* `Array.prototype.sort` is required to be stable by ECMAScript 2019 and is a
  TimSort in V8: an element is placed before an element that originally
  preceded it only when the comparator orders it strictly smaller.  We model
  it by the stable `List.insertionSort` with the relation
  "`a` may stay before `b`", i.e. `0 ≤ cmp b a`.
-/

/-- Characters treated as whitespace by JavaScript's `StringToNumber` /
`parseInt` (the `WhiteSpace` and `LineTerminator` productions; the common
representatives suffice for this model). -/
def jsWs (c : Char) : Bool :=
  c == ' ' || c == '\t' || c == '\n' || c == '\r' || c == '\x0b' || c == '\x0c' ||
  c == '\u00A0' || c == '\uFEFF' || c == '\u2028' || c == '\u2029'

/-- `String.prototype.toLowerCase`, modelled characterwise (exact on ASCII). -/
def jsToLower (s : String) : String :=
  String.mk (s.toList.map Char.toLower)

/-- Numeric value of a list of decimal digits. -/
def digitsVal (ds : List Char) : Nat :=
  ds.foldl (fun n c => n * 10 + (c.toNat - 48)) 0

/-- Value of a hexadecimal digit, if any. -/
def hexDigitVal (c : Char) : Option Nat :=
  if c.isDigit then some (c.toNat - 48)
  else if 'a' ≤ c && c ≤ 'f' then some (c.toNat - 87)
  else if 'A' ≤ c && c ≤ 'F' then some (c.toNat - 55)
  else none

/-- Value of an octal digit, if any. -/
def octDigitVal (c : Char) : Option Nat :=
  if '0' ≤ c && c ≤ '7' then some (c.toNat - 48) else none

/-- Value of a binary digit, if any. -/
def binDigitVal (c : Char) : Option Nat :=
  if c == '0' || c == '1' then some (c.toNat - 48) else none

/-- Parse a non-empty digit string in the given radix, requiring every
character to be a digit of that radix (as `Number("0x…")` does). -/
def parseRadixDigits (base : Nat) (dv : Char → Option Nat) (l : List Char) : Option ℚ :=
  if l.isEmpty then none
  else l.foldl (fun acc c =>
    match acc, dv c with
    | some n, some d => some (n * base + d)
    | _, _ => none) (some (0 : Nat)) |>.map (fun n => (n : ℚ))

/-- The optional exponent part of a JavaScript decimal literal; `[]` means no
exponent (exponent `0`); anything else must be `e`/`E`, an optional sign and a
non-empty run of digits. -/
def parseExpPart : List Char → Option Int
  | [] => some 0
  | c :: rest =>
    if c == 'e' || c == 'E' then
      let (sign, ds) : Int × List Char :=
        match rest with
        | '+' :: t => (1, t)
        | '-' :: t => (-1, t)
        | t => (1, t)
      if ds.isEmpty || !ds.all Char.isDigit then none
      else some (sign * (digitsVal ds : Int))
    else none

/-- The unsigned decimal body of a JavaScript numeric string:
`digits [. digits] [exp]` or `. digits [exp]`. -/
def parseDecBody (l : List Char) : Option ℚ :=
  let ip := l.takeWhile Char.isDigit
  let r1 := l.dropWhile Char.isDigit
  match r1 with
  | '.' :: r2 =>
    let fp := r2.takeWhile Char.isDigit
    let r3 := r2.dropWhile Char.isDigit
    if ip.isEmpty && fp.isEmpty then none
    else (parseExpPart r3).map (fun e =>
      ((digitsVal ip : ℚ) + (digitsVal fp : ℚ) / (10 : ℚ) ^ fp.length) * (10 : ℚ) ^ e)
  | _ =>
    if ip.isEmpty then none
    else (parseExpPart r1).map (fun e => (digitsVal ip : ℚ) * (10 : ℚ) ^ e)

/-- An optionally signed decimal body.  A bare sign is rejected because the
body after it is empty. -/
def parseSignedDec (l : List Char) : Option ℚ :=
  match l with
  | '+' :: r => parseDecBody r
  | '-' :: r => (parseDecBody r).map Neg.neg
  | _ => parseDecBody l

/-- JavaScript's `Number(string)` (the `StringToNumber` conversion): trim
whitespace, empty ↦ `0`, radix-prefixed integers (unsigned only), otherwise a
signed decimal literal; `none` models `NaN`.  (`Infinity` and IEEE rounding
are outside the model, see the header.) -/
def jsStrToNum (s : String) : Option ℚ :=
  let l := ((s.toList.dropWhile jsWs).reverse.dropWhile jsWs).reverse
  match l with
  | [] => some 0
  | '0' :: c :: rest =>
    if c == 'x' || c == 'X' then parseRadixDigits 16 hexDigitVal rest
    else if c == 'o' || c == 'O' then parseRadixDigits 8 octDigitVal rest
    else if c == 'b' || c == 'B' then parseRadixDigits 2 binDigitVal rest
    else parseSignedDec l
  | _ => parseSignedDec l

/-- An argument as received by a JavaScript function: absent (`undefined`), a
number (integral, which is all the callers pass), or a string. -/
inductive JsInput where
  | undef
  | num (n : Int)
  | str (s : String)
deriving Repr, DecidableEq

/-- JavaScript's `parseInt` applied to such an argument: on a number it is the
identity (for integral values), on a string it trims leading whitespace, reads
an optional sign and then a maximal non-empty run of digits (with `0x` hex
support); `none` models `NaN`. -/
def parseIntJs : JsInput → Option Int
  | .undef => none
  | .num n => some n
  | .str s =>
    let l := s.toList.dropWhile jsWs
    let (sign, l) : Int × List Char :=
      match l with
      | '+' :: t => (1, t)
      | '-' :: t => (-1, t)
      | t => (1, t)
    match l with
    | '0' :: c :: rest =>
      if c == 'x' || c == 'X' then
        let ds := rest.takeWhile (fun d => (hexDigitVal d).isSome)
        if ds.isEmpty then none
        else some (sign * (ds.foldl (fun n d => n * 16 + (hexDigitVal d).getD 0) 0 : Nat))
      else
        let ds := l.takeWhile Char.isDigit
        some (sign * (digitsVal ds : Int))
    | _ =>
      let ds := l.takeWhile Char.isDigit
      if ds.isEmpty then none else some (sign * (digitsVal ds : Int))

/-- One CSV row: an ordered record of column name to cell value, `none`
standing for a `null` cell (an absent key reads the same). -/
abbrev Row := List (String × Option String)

/-- `row[column]` followed by the ubiquitous `=== null || === undefined`
normalisation: an absent key and a `null` value both read as `none`. -/
def rowGet (row : Row) (column : String) : Option String :=
  match row.lookup column with
  | some v => v
  | none => none

/-! ## `sortCsv` (src/queryUtils.js lines 396–430) -/

/-- Sign of the comparator value `aNum - bNum` (resp. `bNum - aNum` for
`desc`) that `sortCsv` returns when both cell values parse as numbers. -/
def numCmpJs (direction : String) (a b : ℚ) : Int :=
  if direction == "desc" then
    (if b < a then -1 else if a < b then 1 else 0)
  else
    (if a < b then -1 else if b < a then 1 else 0)

/-- Sign of `aStr.localeCompare(bStr)` (operands swapped for `desc`) on the
lowered strings, collation modelled as lexicographic order. -/
def strCmpJs (direction : String) (a b : String) : Int :=
  if direction == "desc" then
    (if b < a then -1 else if a < b then 1 else 0)
  else
    (if a < b then -1 else if b < a then 1 else 0)

/-- The comparator passed to `sortedData.sort` by `sortCsv`: a missing/`null`
value on the left yields `1`, on the right `-1`; two present values compare
numerically when both parse as numbers and otherwise as lowered strings, the
direction flipping the sign. -/
def cmpRows (column direction : String) (a b : Row) : Int :=
  match rowGet a column, rowGet b column with
  | none, _ => 1
  | some _, none => -1
  | some av, some bv =>
    match jsStrToNum av, jsStrToNum bv with
    | some an, some bn => numCmpJs direction an bn
    | _, _ => strCmpJs direction (jsToLower av) (jsToLower bv)

/-- The stable-sort precedence relation induced by a JavaScript comparator:
`a` (earlier in the input) stays before `b` unless the comparator orders `b`
strictly first, i.e. unless `cmp b a < 0`. -/
def jsSortRel {α : Type} (cmp : α → α → Int) (a b : α) : Prop := 0 ≤ cmp b a

instance {α : Type} (cmp : α → α → Int) (a b : α) : Decidable (jsSortRel cmp a b) :=
  inferInstanceAs (Decidable (0 ≤ cmp b a))

/-- `Array.prototype.sort(cmp)`: a stable sort (ECMAScript 2019, TimSort in
V8), modelled as the stable `List.insertionSort` under `jsSortRel cmp`. -/
def jsArraySort {α : Type} (cmp : α → α → Int) (l : List α) : List α :=
  l.insertionSort (jsSortRel cmp)

/-- `sortCsv(data, column, direction)`: no-op on an empty array or a falsy
column name, otherwise a stable sort of a copy of `data` under `cmpRows`. -/
def sortCsv (data : List Row) (column : String) (direction : String) : List Row :=
  if data.isEmpty || column == "" then data
  else jsArraySort (cmpRows column direction) data

/-- Boolean test that `pat` is a prefix of `l`. -/
def charsHasPre : List Char → List Char → Bool
  | [], _ => true
  | _ :: _, [] => false
  | a :: p, b :: t => a == b && charsHasPre p t

/-- Boolean test that `pat` occurs contiguously in `l`
(JavaScript's `String.prototype.includes`). -/
def charsHasSub (pat : List Char) : List Char → Bool
  | [] => pat.isEmpty
  | c :: t => charsHasPre pat (c :: t) || charsHasSub pat t

/-- `s.includes(pat)` on strings. -/
def strIncludes (s pat : String) : Bool :=
  charsHasSub pat.toList s.toList

/-- The row predicate of `searchCsv`: some cell value is non-`null` and its
lowered string form contains the (already lowered) term. -/
def rowMatches (term : String) (row : Row) : Bool :=
  row.any fun kv =>
    match kv.2 with
    | none => false
    | some v => strIncludes (jsToLower v) term

/-- `searchCsv(data, searchTerm)`: identity for a falsy term or empty data,
otherwise `data.filter` with `rowMatches` on the lowered term. -/
def searchCsv (data : List Row) (searchTerm : Option String) : List Row :=
  match searchTerm with
  | none => data
  | some t =>
    if t == "" || data.isEmpty then data
    else data.filter (rowMatches (jsToLower t))

/-! ## `paginateCsv` (src/queryUtils.js lines 320–359) -/

/-- The `pagination` metadata object.  `limit` is a raw JavaScript value
because the empty-data branch of the source echoes the argument unvalidated;
`startIndex`/`endIndex` are `Option`s because that branch omits the two keys
altogether. -/
structure PaginationMeta where
  page : Int
  limit : JsInput
  totalRows : Nat
  totalPages : Nat
  hasNext : Bool
  hasPrev : Bool
  startIndex : Option Int
  endIndex : Option Int
deriving Repr, DecidableEq

/-- The value returned by `paginateCsv`. -/
structure PaginateResult where
  data : List Row
  pagination : PaginationMeta
deriving Repr, DecidableEq

/-- `Math.max(1, parseInt(page) || 1)` after substituting the default `1` for
an absent argument (`parseInt` of `NaN`, `0` and `-0` are all falsy). -/
def normPage (page : JsInput) : Int :=
  max 1 (match parseIntJs (if page = .undef then .num 1 else page) with
         | some p => if p = 0 then 1 else p
         | none => 1)

/-- `Math.max(1, parseInt(limit) || 10)` after substituting the default `10`
for an absent argument. -/
def normLimit (limit : JsInput) : Int :=
  max 1 (match parseIntJs (if limit = .undef then .num 10 else limit) with
         | some l => if l = 0 then 10 else l
         | none => 10)

/-- `paginateCsv(data, page = 1, limit = 10)`.  Empty data short-circuits to a
fixed metadata shape; otherwise `page`/`limit` are normalised with
`Math.max(1, parseInt(x) || default)` and the slice
`data.slice((page-1)*limit, min(page*limit, totalRows))` is returned with its
metadata. -/
def paginateCsv (data : List Row) (page : JsInput) (limit : JsInput) : PaginateResult :=
  let limitArg := if limit = .undef then .num 10 else limit
  if data.isEmpty then
    { data := []
      pagination :=
        { page := 1, limit := limitArg, totalRows := 0, totalPages := 0
          hasNext := false, hasPrev := false, startIndex := none, endIndex := none } }
  else
    let currentPage : Int := normPage page
    let pageLimit : Int := normLimit limit
    let totalRows : Nat := data.length
    let totalPages : Nat := (totalRows + pageLimit.toNat - 1) / pageLimit.toNat
    let startIndex : Int := (currentPage - 1) * pageLimit
    let endIndex : Int := min (startIndex + pageLimit) (totalRows : Int)
    { data := (data.drop startIndex.toNat).take (endIndex - startIndex).toNat
      pagination :=
        { page := currentPage, limit := .num pageLimit
          totalRows := totalRows, totalPages := totalPages
          hasNext := decide (currentPage < (totalPages : Int))
          hasPrev := decide (1 < currentPage)
          startIndex := some (startIndex + 1), endIndex := some endIndex } }

/-! ## `getRowById` (src/queryUtils.js lines 368–387) -/

/-- A canonical array-index property key in JavaScript: the decimal form of
an unsigned integer below `2^32 - 1`, with no leading zero (except `"0"`
itself).  Such keys enumerate before all other own keys. -/
def isArrayIndexKey (s : String) : Bool :=
  match s.toList with
  | [] => false
  | c :: rest =>
    (c :: rest).all Char.isDigit && (c != '0' || rest.isEmpty) &&
    digitsVal (c :: rest) < 4294967295

/-- `Object.keys(row)`: the own enumerable keys, canonical array-index keys
first in ascending numeric order, then the remaining keys in insertion
order. -/
def jsObjectKeys (row : Row) : List String :=
  let keys := row.map Prod.fst
  (keys.filter isArrayIndexKey).insertionSort
      (fun a b => digitsVal a.toList ≤ digitsVal b.toList) ++
    keys.filter (fun k => !isArrayIndexKey k)

/-- The per-row match of `getRowById`: the cell at the id column is
non-`null` and either equals the id as a string or both sides parse as
numbers with equal value (`NaN === NaN` being false). -/
def idMatches (col : String) (i : String) (row : Row) : Bool :=
  match rowGet row col with
  | none => false
  | some rowId =>
    rowId == i ||
      (match jsStrToNum rowId, jsStrToNum i with
       | some a, some b => a == b
       | _, _ => false)

/-- `getRowById(data, id, idColumn = null)`: `null` for empty data or an
absent id; `columnToUse = idColumn || Object.keys(data[0])[0]` substitutes
the first enumerated key of the first row for an absent or falsy (empty
string) argument; `if (!columnToUse) return null` then rejects a missing
*or empty-string* column; otherwise `data.find` with `idMatches`. -/
def getRowById (data : List Row) (id : Option String) (idColumn : Option String) : Option Row :=
  if data.isEmpty || id.isNone then none
  else
    let columnToUse : Option String :=
      match idColumn with
      | some c => if c == "" then (jsObjectKeys (data.headD [])).head? else some c
      | none => (jsObjectKeys (data.headD [])).head?
    match columnToUse, id with
    | some col, some i => if col == "" then none else data.find? (idMatches col i)
    | _, _ => none

/-! ## `getColumnStats` (src/queryUtils.js lines 460–497) -/

/-- `Math.round(q * 100) / 100`: round to two decimal places, halves towards
positive infinity. -/
def round2 (q : ℚ) : ℚ := (⌊q * 100 + 1 / 2⌋ : ℚ) / 100

/-- The present, numeric-parseable values of a column, in row order, as
numbers (`.map(row[column]).filter(non-null ∧ !isNaN(Number)).map(Number)`). -/
def numericValues (data : List Row) (column : String) : List ℚ :=
  data.filterMap fun row =>
    match rowGet row column with
    | none => none
    | some v => jsStrToNum v

/-- First element of a non-empty rational list, folded with `min`
(`Math.min(...values)`; the empty case is unreachable in the source). -/
def listMinQ : List ℚ → ℚ
  | [] => 0
  | x :: xs => xs.foldl min x

/-- `Math.max(...values)` likewise. -/
def listMaxQ : List ℚ → ℚ
  | [] => 0
  | x :: xs => xs.foldl max x

/-- The statistics record built per column. -/
structure ColStats where
  count : Nat
  sum : ℚ
  mean : ℚ
  median : ℚ
  min : ℚ
  max : ℚ
  range : ℚ
deriving Repr, DecidableEq

/-- The statistics record computed from a non-empty value list: count, sum,
rounded mean, rounded median over the ascending-sorted copy, min, max and
range.  (`values.sort((a,b) => a-b)` sorts the freshly mapped array in place;
`sum` is computed before the sort, `min`/`max` after, which is immaterial as
sorting permutes.) -/
def statsRecord (values : List ℚ) : ColStats :=
  let sum := values.foldl (· + ·) 0
  let mean := sum / (values.length : ℚ)
  let sorted := values.insertionSort (· ≤ ·)
  let median :=
    if sorted.length % 2 == 0 then
      ((sorted.getD (sorted.length / 2 - 1) 0) + sorted.getD (sorted.length / 2) 0) / 2
    else sorted.getD (sorted.length / 2) 0
  { count := values.length, sum := sum, mean := round2 mean, median := round2 median
    min := listMinQ sorted, max := listMaxQ sorted
    range := listMaxQ sorted - listMinQ sorted }

/-- The per-column body of `getColumnStats`: `none` when the column has no
present numeric-parseable value (the column is omitted), otherwise
`statsRecord` of the values. -/
def statsFor (data : List Row) (column : String) : Option ColStats :=
  let values := numericValues data column
  if values.isEmpty then none else some (statsRecord values)

/-- `getColumnStats(data, numericColumns = [])`: empty object on empty data;
the candidate columns are the argument or, when it is empty, the keys of the
first row; each candidate contributes an entry unless it has no numeric
values.  The JavaScript object is modelled as the association list of entries
in insertion order. -/
def getColumnStats (data : List Row) (numericColumns : List String) : List (String × ColStats) :=
  if data.isEmpty then []
  else
    let columnsToAnalyze :=
      if numericColumns.isEmpty then (data.headD []).map Prod.fst else numericColumns
    columnsToAnalyze.filterMap fun c => (statsFor data c).map fun st => (c, st)

/-! ## `CsvLoader` (src/csvLoader.js lines 24–64, 129–139) -/

/-- The mutable fields of a `CsvLoader` instance that queries observe. -/
structure CsvLoaderState where
  data : List Row
  columns : List String
  filePath : Option String
deriving Repr, DecidableEq

/-- The outcome of the ingestion collaborator (filesystem + `csv-parser`
stream) for one `loadCsv` call: the file is missing, the stream errors
mid-parse, or the full row sequence is delivered. -/
inductive Ingestion where
  | fileNotFound
  | parseError
  | ok (rows : List Row)
deriving Repr, DecidableEq

/-- Union of row keys in first-seen order (the `Set` that `loadCsv` fills
with `Object.keys(row)` per row). -/
def collectColumns (rows : List Row) : List String :=
  rows.foldl
    (fun acc r => r.foldl (fun acc kv => if acc.contains kv.1 then acc else acc ++ [kv.1]) acc)
    []

/-- The successful result object of `loadCsv`. -/
structure LoadResult where
  data : List Row
  columns : List String
  totalRows : Nat
  filePath : String
deriving Repr, DecidableEq

/-- `CsvLoader.loadCsv(filePath)` given the ingestion outcome: `this.filePath`
is assigned up front; `this.data`/`this.columns` are assigned only inside the
stream's `end` handler, i.e. only on `Ingestion.ok`; both failure shapes
(`existsSync` false, stream `error`) reject without touching them. -/
def CsvLoader.loadCsv (s : CsvLoaderState) (path : String) (ing : Ingestion) :
    CsvLoaderState × Except String LoadResult :=
  let s1 : CsvLoaderState := { s with filePath := some path }
  match ing with
  | .fileNotFound => (s1, .error ("Failed to load CSV: CSV file not found: " ++ path))
  | .parseError => (s1, .error "Error parsing CSV")
  | .ok rows =>
    let s2 : CsvLoaderState := { s1 with data := rows, columns := collectColumns rows }
    (s2, .ok { data := rows, columns := s2.columns, totalRows := rows.length, filePath := path })

/-- `CsvLoader.getData()`. -/
def CsvLoader.getData (s : CsvLoaderState) : List Row := s.data

/-- `CsvLoader.getColumns()`. -/
def CsvLoader.getColumns (s : CsvLoaderState) : List String := s.columns

/-! ## Lemmas about the sort comparator -/

theorem cmpRows_missing_left {column direction : String} {a b : Row}
    (h : rowGet a column = none) : cmpRows column direction a b = 1 := by
  simp [cmpRows, h]

theorem cmpRows_present_missing {column direction : String} {a b : Row} {v : String}
    (ha : rowGet a column = some v) (hb : rowGet b column = none) :
    cmpRows column direction a b = -1 := by
  simp [cmpRows, ha, hb]

/-- A missing row stays missing under the stable-sort precedence: nothing
present is allowed to stay behind a missing row. -/
theorem rowGet_eq_none_of_jsSortRel {column direction : String} {x y : Row}
    (hx : rowGet x column = none)
    (h : jsSortRel (cmpRows column direction) x y) : rowGet y column = none := by
  rcases hy : rowGet y column with _ | v
  · rfl
  · exfalso
    have : cmpRows column direction y x = -1 := cmpRows_present_missing hy hx
    simp only [jsSortRel, this] at h
    omega

theorem rowGet_ne_none_of_not_jsSortRel {column direction : String} {x y : Row}
    (h : ¬ jsSortRel (cmpRows column direction) x y) : rowGet y column ≠ none := by
  intro hy
  exact h (by simp [jsSortRel, cmpRows_missing_left (b := x) hy])

/-- Inserting one row preserves the "after a missing row only missing rows"
shape of the list. -/
theorem orderedInsert_missingTail (column direction : String) (x : Row) :
    ∀ l : List Row,
      l.Pairwise (fun a b => rowGet a column = none → rowGet b column = none) →
      (l.orderedInsert (jsSortRel (cmpRows column direction)) x).Pairwise
        (fun a b => rowGet a column = none → rowGet b column = none)
  | [], _ => by simp
  | y :: ys, h => by
    rcases List.pairwise_cons.mp h with ⟨hy, hys⟩
    by_cases hr : jsSortRel (cmpRows column direction) x y
    · rw [List.orderedInsert, if_pos hr]
      refine List.pairwise_cons.mpr ⟨?_, h⟩
      intro z hz hx
      have hyn : rowGet y column = none := rowGet_eq_none_of_jsSortRel hx hr
      rcases List.mem_cons.mp hz with rfl | hz
      · exact hyn
      · exact hy z hz hyn
    · rw [List.orderedInsert, if_neg hr]
      refine List.pairwise_cons.mpr ⟨?_, orderedInsert_missingTail column direction x ys hys⟩
      intro z hz hyn
      exact absurd hyn (rowGet_ne_none_of_not_jsSortRel hr)

/-- The sorted output always has every missing row behind every present row. -/
theorem jsArraySort_missingTail (column direction : String) :
    ∀ data : List Row,
      (jsArraySort (cmpRows column direction) data).Pairwise
        (fun a b => rowGet a column = none → rowGet b column = none)
  | [] => by simp [jsArraySort]
  | a :: l => by
    rw [jsArraySort, List.insertionSort]
    exact orderedInsert_missingTail column direction a _
      (jsArraySort_missingTail column direction l)

/-- C1: For every row sequence, every (non-falsy) column name, and every
direction — `asc`, `desc` or anything else — `sortCsv` returns a permutation
of its input in which every row whose value at the sort column is missing or
`null` appears after every row with a present value: no present-valued row
ever follows a missing-valued one.  (The empty column name takes the
documented no-op branch of the source and is excluded.) -/
theorem sortCsv_missing_to_tail (data : List Row) (column direction : String)
    (hcol : column ≠ "") :
    (sortCsv data column direction).Perm data ∧
    (sortCsv data column direction).Pairwise
      (fun a b => rowGet a column = none → rowGet b column = none) := by
  cases data with
  | nil => simp [sortCsv]
  | cons a l =>
    have h2 : (column == "") = false := beq_eq_false_iff_ne.mpr hcol
    rw [sortCsv]
    simp only [List.isEmpty_cons, h2, Bool.or_self, if_false, Bool.false_or]
    exact ⟨by rw [jsArraySort]; exact List.perm_insertionSort _ _,
      jsArraySort_missingTail column direction (a :: l)⟩

/-- Witness for C1 at a concrete dataset with a missing and a present row. -/
theorem sortCsv_missing_to_tail_witness :
    (sortCsv [[("v", none)], [("v", some "1")]] "v" "asc").Perm
        [[("v", none)], [("v", some "1")]] ∧
    (sortCsv [[("v", none)], [("v", some "1")]] "v" "asc").Pairwise
      (fun a b => rowGet a "v" = none → rowGet b "v" = none) :=
  sortCsv_missing_to_tail [[("v", none)], [("v", some "1")]] "v" "asc" (by decide)

/-- C6: `searchCsv` with an absent or empty term is the identity; with any
non-empty term it returns `data.filter` of the match predicate — hence a
subsequence of the input in original order — and a row matches exactly when
some cell holds a present (non-`null`) value whose lowered string contains
the lowered term, so `null`/absent cells never cause a match. -/
theorem searchCsv_spec (data : List Row) (t : String) :
    searchCsv data none = data ∧
    searchCsv data (some "") = data ∧
    (t ≠ "" →
      searchCsv data (some t) = data.filter (rowMatches (jsToLower t)) ∧
      List.Sublist (searchCsv data (some t)) data ∧
      (∀ row : Row,
        rowMatches (jsToLower t) row = true ↔
          ∃ k v, (k, some v) ∈ row ∧
            strIncludes (jsToLower v) (jsToLower t) = true)) := by
  refine ⟨rfl, rfl, fun ht => ?_⟩
  have hbe : (t == "") = false := beq_eq_false_iff_ne.mpr ht
  have hfil : searchCsv data (some t) = data.filter (rowMatches (jsToLower t)) := by
    rw [searchCsv]
    cases data with
    | nil => simp [hbe]
    | cons x l => simp [hbe]
  refine ⟨hfil, hfil ▸ List.filter_sublist data, fun row => ?_⟩
  unfold rowMatches
  rw [List.any_eq_true]
  constructor
  · rintro ⟨⟨k, v⟩, hkv, hmatch⟩
    cases v with
    | none => simp at hmatch
    | some v => exact ⟨k, v, hkv, hmatch⟩
  · rintro ⟨k, v, hkv, hmatch⟩
    exact ⟨(k, some v), hkv, hmatch⟩

/-- Witness for C6: a concrete search over three rows, one matching
case-insensitively, one not, one with a `null` cell. -/
theorem searchCsv_spec_witness :
    searchCsv [[("a", some "Hello")], [("a", some "world")], [("a", none)]] (some "HELL") =
      ([[("a", some "Hello")], [("a", some "world")], [("a", none)]] : List Row).filter
        (rowMatches (jsToLower "HELL")) :=
  ((searchCsv_spec [[("a", some "Hello")], [("a", some "world")], [("a", none)]]
    "HELL").2.2 (by decide)).1

/-! ## Lookup-by-id lemmas -/

/-- `Array.prototype.find` returns the first match: a successful result
splits the list into non-matching rows, the hit, and a remainder. -/
theorem find?_first_split {α : Type} (p : α → Bool) :
    ∀ (l : List α) (r : α), l.find? p = some r →
      p r = true ∧ ∃ pre post, l = pre ++ r :: post ∧ ∀ x ∈ pre, p x = false
  | [], r => by simp
  | a :: l, r => by
    intro h
    rw [List.find?] at h
    rcases hpa : p a with _ | _
    · rw [hpa] at h
      simp only at h
      obtain ⟨hr, pre, post, hsplit, hpre⟩ := find?_first_split p l r h
      refine ⟨hr, a :: pre, post, by simp [hsplit], ?_⟩
      intro x hx
      rcases List.mem_cons.mp hx with rfl | hx
      · exact hpa
      · exact hpre x hx
    · rw [hpa] at h
      simp only [Option.some.injEq] at h
      subst h
      exact ⟨hpa, [], l, rfl, by simp⟩

/-- C7: `getRowById` with the default id column.  The absence sentinel is
returned for empty data or an absent id; otherwise the id column is the first
key of the first row in `Object.keys` enumeration order; if the first row has
no keys, or that first key is the empty string, the falsy `columnToUse` check
of the source returns the sentinel; otherwise a row matches when its cell at
that column is present and equals the id as a string, or both sides parse as
numbers with equal value; the first matching row in input order is returned,
and the sentinel exactly when no row matches.  The claim's concrete example
is included. -/
theorem getRowById_spec (data : List Row) (id idColumn : Option String) :
    (data = [] → getRowById data id idColumn = none) ∧
    (id = none → getRowById data id idColumn = none) ∧
    (∀ row col i, idMatches col i row = true ↔
      ∃ v, rowGet row col = some v ∧
        (v = i ∨ ∃ a, jsStrToNum v = some a ∧ jsStrToNum i = some a)) ∧
    (∀ r₀ rest i, data = r₀ :: rest → id = some i → idColumn = none →
      match (jsObjectKeys r₀).head? with
      | none => getRowById data id idColumn = none
      | some col =>
        (col = "" → getRowById data id idColumn = none) ∧
        (col ≠ "" →
          (getRowById data id idColumn = none ↔ ∀ r ∈ data, idMatches col i r = false) ∧
          (∀ r, getRowById data id idColumn = some r →
            idMatches col i r = true ∧
            ∃ pre post, data = pre ++ r :: post ∧ ∀ x ∈ pre, idMatches col i x = false))) ∧
    getRowById [[("id", some "1"), ("n", some "A")], [("id", some "2"), ("n", some "B")]]
        (some "2") none = some [("id", some "2"), ("n", some "B")] ∧
    getRowById [[("id", some "1"), ("n", some "A")], [("id", some "2"), ("n", some "B")]]
        (some "99") none = none := by
  refine ⟨fun hd => by simp [getRowById, hd], fun hi => by simp [getRowById, hi],
    fun row col i => ?_, fun r₀ rest i hd hi hc => ?_,
    by simp [getRowById, jsObjectKeys, isArrayIndexKey, digitsVal, idMatches, rowGet,
        jsStrToNum, parseSignedDec, parseDecBody, parseExpPart, jsWs, List.find?,
        List.insertionSort, List.orderedInsert]; decide,
    by simp [getRowById, jsObjectKeys, isArrayIndexKey, digitsVal, idMatches, rowGet,
        jsStrToNum, parseSignedDec, parseDecBody, parseExpPart, jsWs, List.find?,
        List.insertionSort, List.orderedInsert]; decide⟩
  · unfold idMatches
    rcases hg : rowGet row col with _ | v
    · simp
    · simp only [Option.some.injEq]
      constructor
      · intro h
        rcases Bool.or_eq_true_iff.mp h with h | h
        · exact ⟨v, rfl, Or.inl (by simpa using h)⟩
        · rcases hnv : jsStrToNum v with _ | a <;> rcases hni : jsStrToNum i with _ | b <;>
            rw [hnv, hni] at h <;> simp at h
          exact ⟨v, rfl, Or.inr ⟨a, hnv, congrArg some h.symm⟩⟩
      · rintro ⟨v', hv', h⟩
        cases hv'
        rcases h with rfl | ⟨a, hna, hni⟩
        · simp
        · rw [hna, hni]
          simp
  · subst hd hi hc
    rcases hcol : ((jsObjectKeys r₀).head? : Option String) with _ | col
    · simp [getRowById, hcol]
    · simp only
      refine ⟨fun hce => ?_, fun hcne => ?_⟩
      · subst hce
        simp [getRowById, hcol]
      have hbe : (col == "") = false := beq_eq_false_iff_ne.mpr hcne
      have hopen : getRowById (r₀ :: rest) (some i) none =
          (r₀ :: rest).find? (idMatches col i) := by
        simp [getRowById, hcol, hbe]
      rw [hopen]
      constructor
      · rw [List.find?_eq_none]
        constructor
        · intro h r hr
          exact Bool.not_eq_true _ ▸ (h r hr)
        · intro h r hr
          simp [h r hr]
      · intro r hr
        obtain ⟨hmatch, pre, post, hsplit, hpre⟩ :=
          find?_first_split (idMatches col i) (r₀ :: rest) r hr
        exact ⟨hmatch, pre, post, hsplit, hpre⟩

/-- Witness for C7: the claim's own example dataset; id `"99"` matches no
row, so the theorem's none-characterisation yields the sentinel. -/
theorem getRowById_spec_witness :
    getRowById [[("id", some "1"), ("n", some "A")], [("id", some "2"), ("n", some "B")]]
        (some "99") none = none :=
  (getRowById_spec [[("id", some "1"), ("n", some "A")], [("id", some "2"), ("n", some "B")]]
    (some "99") none).2.2.2.2.2

/-! ## Reload atomicity -/

/-- C9: a `loadCsv` call whose ingestion fails — the file is missing or the
parse stream errors — returns an error and leaves `this.data` and
`this.columns` exactly as they were, so `getData`/`getColumns` (and hence
every query built on them) still observe the previous good snapshot. -/
theorem loadCsv_failure_preserves_snapshot (s : CsvLoaderState) (path : String)
    (ing : Ingestion) (hfail : ing = .fileNotFound ∨ ing = .parseError) :
    CsvLoader.getData (CsvLoader.loadCsv s path ing).1 = CsvLoader.getData s ∧
    CsvLoader.getColumns (CsvLoader.loadCsv s path ing).1 = CsvLoader.getColumns s ∧
    ∃ e, (CsvLoader.loadCsv s path ing).2 = .error e := by
  rcases hfail with rfl | rfl <;>
    exact ⟨rfl, rfl, _, rfl⟩

/-- Witness for C9: a loader holding a good snapshot `S1`, hit by a
failing reload. -/
theorem loadCsv_failure_preserves_snapshot_witness :
    CsvLoader.getData
        (CsvLoader.loadCsv ⟨[[("a", some "1")]], ["a"], some "good.csv"⟩ "gone.csv"
          .fileNotFound).1 =
      CsvLoader.getData ⟨[[("a", some "1")]], ["a"], some "good.csv"⟩ ∧
    CsvLoader.getColumns
        (CsvLoader.loadCsv ⟨[[("a", some "1")]], ["a"], some "good.csv"⟩ "gone.csv"
          .fileNotFound).1 =
      CsvLoader.getColumns ⟨[[("a", some "1")]], ["a"], some "good.csv"⟩ ∧
    ∃ e, (CsvLoader.loadCsv ⟨[[("a", some "1")]], ["a"], some "good.csv"⟩ "gone.csv"
        .fileNotFound).2 = .error e :=
  loadCsv_failure_preserves_snapshot ⟨[[("a", some "1")]], ["a"], some "good.csv"⟩
    "gone.csv" .fileNotFound (Or.inl rfl)

/-! ## Empty and whitespace-only cells read as the number zero -/

/-- A whitespace-only (in particular empty) string trims to nothing. -/
theorem jsStrToNum_all_ws {s : String} (h : s.toList.all jsWs) :
    jsStrToNum s = some 0 := by
  unfold jsStrToNum
  have h1 : s.toList.dropWhile jsWs = [] :=
    List.dropWhile_eq_nil_iff.mpr (fun x hx => List.all_eq_true.mp h x hx)
  rw [h1]
  rfl

/-- C10: an empty or whitespace-only cell value is coerced to the number `0`
(`Number("") === 0`), not treated as missing or non-numeric.  Consequently
`getColumnStats` counts such a cell among a column's numeric values as a `0`,
and `sortCsv`'s comparator compares such a cell against any numeric cell in
the numeric branch, as `0` against that number — not by the string branch and
not by the missing-value rule. -/
theorem blank_cell_is_numeric_zero (ws : String) (hws : ws.toList.all jsWs) :
    jsStrToNum ws = some 0 ∧
    (∀ (r : Row) (data : List Row) (c : String), rowGet r c = some ws →
      numericValues (r :: data) c = 0 :: numericValues data c) ∧
    (∀ (column direction : String) (r₁ r₂ : Row) (v : String) (q : ℚ),
      rowGet r₁ column = some ws → rowGet r₂ column = some v → jsStrToNum v = some q →
      cmpRows column direction r₁ r₂ = numCmpJs direction 0 q) := by
  have h0 : jsStrToNum ws = some 0 := jsStrToNum_all_ws hws
  refine ⟨h0, fun r data c hr => ?_, fun column direction r₁ r₂ v q h₁ h₂ hv => ?_⟩
  · rw [numericValues, List.filterMap_cons, hr]
    simp only [h0]
    rfl
  · rw [cmpRows, h₁, h₂]
    simp only [h0, hv]

/-- Witness for C10 at the empty string: a dataset where a blank cell is
averaged into the stats as `0` and compared numerically by the sort. -/
theorem blank_cell_is_numeric_zero_witness :
    jsStrToNum "" = some 0 ∧
    numericValues ([[("v", some "")], [("v", some "4")]] : List Row) "v" =
      0 :: numericValues ([[("v", some "4")]] : List Row) "v" ∧
    cmpRows "v" "asc" [("v", some "")] [("v", some "4")] = numCmpJs "asc" 0 4 := by
  obtain ⟨h0, hnum, hcmp⟩ := blank_cell_is_numeric_zero "" (by decide)
  exact ⟨h0, hnum [("v", some "")] [[("v", some "4")]] "v" rfl,
    hcmp "v" "asc" [("v", some "")] [("v", some "4")] "4" 4 rfl rfl
      (by simp [jsStrToNum, parseSignedDec, parseDecBody, parseExpPart, digitsVal, jsWs])⟩

/-! ## Pagination lemmas -/

theorem one_le_normPage (page : JsInput) : 1 ≤ normPage page := le_max_left 1 _

theorem one_le_normLimit (limit : JsInput) : 1 ≤ normLimit limit := le_max_left 1 _

/-- The number of pages covers all rows: `totalPages * limit ≥ totalRows`. -/
theorem nat_ceil_div_mul_ge (n k : ℕ) (hk : 0 < k) : n ≤ ((n + k - 1) / k) * k := by
  have h := le_smul_ceilDiv (β := ℕ) hk (b := n)
  rw [Nat.ceilDiv_eq_add_pred_div, smul_eq_mul, Nat.mul_comm] at h
  exact h

/-- `Math.ceil(n / k)` for naturals with `k > 0` is `(n + k - 1) / k`. -/
theorem nat_ceil_div_eq (n k : ℕ) (hk : 0 < k) :
    (n + k - 1) / k = ⌈(n : ℚ) / (k : ℚ)⌉₊ := by
  have hk' : (0 : ℚ) < (k : ℚ) := by exact_mod_cast hk
  refine le_antisymm ?_ ?_
  · rw [← Nat.ceilDiv_eq_add_pred_div, ceilDiv_le_iff_le_mul hk]
    have h1 : (n : ℚ) / (k : ℚ) ≤ (⌈(n : ℚ) / (k : ℚ)⌉₊ : ℚ) := Nat.le_ceil _
    rw [div_le_iff₀ hk'] at h1
    have h2 : (n : ℚ) ≤ ((k * ⌈(n : ℚ) / (k : ℚ)⌉₊ : ℕ) : ℚ) := by
      push_cast
      linarith [h1]
    exact_mod_cast h2
  · rw [Nat.ceil_le, div_le_iff₀ hk']
    have h2 : n ≤ ((n + k - 1) / k) * k := nat_ceil_div_mul_ge n k hk
    exact_mod_cast h2

/-- Characterisation of `paginateCsv` on non-empty data, with the two
normalised parameters abbreviated. -/
theorem paginateCsv_nonempty (data : List Row) (page limit : JsInput) (hd : data ≠ []) :
    paginateCsv data page limit =
      { data := (data.drop ((normPage page - 1) * normLimit limit).toNat).take
          (min ((normPage page - 1) * normLimit limit + normLimit limit) (data.length : Int) -
            (normPage page - 1) * normLimit limit).toNat
        pagination :=
          { page := normPage page, limit := .num (normLimit limit)
            totalRows := data.length
            totalPages :=
              (data.length + (normLimit limit).toNat - 1) / (normLimit limit).toNat
            hasNext := decide (normPage page <
              (((data.length + (normLimit limit).toNat - 1) / (normLimit limit).toNat : ℕ) : Int))
            hasPrev := decide (1 < normPage page)
            startIndex := some ((normPage page - 1) * normLimit limit + 1)
            endIndex := some (min ((normPage page - 1) * normLimit limit + normLimit limit)
              (data.length : Int)) } } := by
  cases data with
  | nil => exact absurd rfl hd
  | cons x l => rfl

/-- C3: on non-empty data, for any `page`/`limit` inputs — absent, zero,
negative or non-numeric — `paginateCsv` clamps both parameters to at least 1
(via `normPage`/`normLimit`, which encode `Math.max(1, parseInt(x) || d)`
with defaults 1 and 10), returns the slice
`rows[(page-1)*limit : min(page*limit, totalRows)]`, and metadata `page`,
`limit`, `totalRows`, `totalPages = ceil(totalRows/limit)`,
`hasNext ↔ page < totalPages`, `hasPrev ↔ page > 1`, and the 1-based
`startIndex`/`endIndex` of the slice; a page beyond `totalPages` yields an
empty slice with the same well-formed metadata, never an error. -/
theorem paginateCsv_nonempty_spec (data : List Row) (page limit : JsInput)
    (hd : data ≠ []) :
    (paginateCsv data page limit).pagination.page = normPage page ∧
    1 ≤ normPage page ∧
    (paginateCsv data page limit).pagination.limit = .num (normLimit limit) ∧
    1 ≤ normLimit limit ∧
    (paginateCsv data page limit).data =
      (data.take (min (normPage page * normLimit limit).toNat data.length)).drop
        ((normPage page - 1) * normLimit limit).toNat ∧
    (paginateCsv data page limit).pagination.totalRows = data.length ∧
    (paginateCsv data page limit).pagination.totalPages =
      ⌈(data.length : ℚ) / (((normLimit limit).toNat : ℕ) : ℚ)⌉₊ ∧
    ((paginateCsv data page limit).pagination.hasNext = true ↔
      normPage page < ((paginateCsv data page limit).pagination.totalPages : Int)) ∧
    ((paginateCsv data page limit).pagination.hasPrev = true ↔ 1 < normPage page) ∧
    (paginateCsv data page limit).pagination.startIndex =
      some ((normPage page - 1) * normLimit limit + 1) ∧
    (paginateCsv data page limit).pagination.endIndex =
      some (min (normPage page * normLimit limit) (data.length : Int)) ∧
    (((paginateCsv data page limit).pagination.totalPages : Int) < normPage page →
      (paginateCsv data page limit).data = []) := by
  have hp := one_le_normPage page
  have hl := one_le_normLimit limit
  rw [paginateCsv_nonempty data page limit hd]
  set P := normPage page with hP
  set L := normLimit limit with hL
  set T := data.length with hT
  have ha : 0 ≤ (P - 1) * L := mul_nonneg (by omega) (by omega)
  have hmul : P * L = (P - 1) * L + L := by ring
  refine ⟨rfl, hp, rfl, hl, ?_, rfl, ?_, ?_, ?_, rfl, by rw [hmul], ?_⟩
  · rw [List.drop_take, List.take_eq_take]
    rw [List.length_drop]
    rw [hmul]
    set a := (P - 1) * L with hA
    omega
  · simp only
    exact nat_ceil_div_eq T L.toNat (by omega)
  · simp only [decide_eq_true_eq]
  · simp only [decide_eq_true_eq]
  · intro hbeyond
    simp only at hbeyond ⊢
    have h1 : (T : ℤ) ≤ ((T + L.toNat - 1) / L.toNat : ℕ) * L := by
      have := nat_ceil_div_mul_ge T L.toNat (by omega)
      have hcast : (((T + L.toNat - 1) / L.toNat * L.toNat : ℕ) : ℤ) =
          ((T + L.toNat - 1) / L.toNat : ℕ) * L := by
        push_cast
        rw [Int.toNat_of_nonneg (by omega)]
      omega
    have h2 : (((T + L.toNat - 1) / L.toNat : ℕ) : ℤ) * L ≤ (P - 1) * L :=
      mul_le_mul_of_nonneg_right (by omega) (by omega)
    have h3 : (T : ℤ) ≤ (P - 1) * L := le_trans h1 h2
    have hnil : data.drop ((P - 1) * L).toNat = [] := by
      apply List.drop_eq_nil_of_le
      rw [← hT]
      omega
    rw [hnil, List.take_nil]

/-- Witness for C3: three rows, a non-numeric `page` and a zero `limit` —
both normalise to at least 1 and the metadata is well-formed. -/
theorem paginateCsv_nonempty_spec_witness :
    1 ≤ normPage (.str "abc") ∧ 1 ≤ normLimit (.num 0) ∧
    (paginateCsv [[("id", some "1")], [("id", some "2")], [("id", some "3")]]
      (.str "abc") (.num 0)).pagination.totalRows = 3 := by
  obtain ⟨-, h1, -, h2, -, h3, -⟩ :=
    paginateCsv_nonempty_spec
      [[("id", some "1")], [("id", some "2")], [("id", some "3")]]
      (.str "abc") (.num 0) (by decide)
  exact ⟨h1, h2, h3.trans rfl⟩

/-- C4 counterexample: on empty data with `limit = 0` the source echoes the
raw `limit` (not clamped to 1) and omits `startIndex`/`endIndex` entirely,
contradicting the claim that the empty case carries the same metadata
promised for every result. -/
theorem paginateCsv_empty_counterexample :
    (paginateCsv [] (.num 1) (.num 0)).pagination.totalRows = 0 ∧
    (paginateCsv [] (.num 1) (.num 0)).pagination.limit = .num 0 ∧
    ¬ (∃ l : Int, (paginateCsv [] (.num 1) (.num 0)).pagination.limit = .num l ∧ 1 ≤ l) ∧
    (paginateCsv [] (.num 1) (.num 0)).pagination.startIndex = none ∧
    (paginateCsv [] (.num 1) (.num 0)).pagination.endIndex = none := by
  refine ⟨rfl, rfl, ?_, rfl, rfl⟩
  rintro ⟨l, hl, h1⟩
  have h0 : (paginateCsv [] (.num 1) (.num 0)).pagination.limit = .num 0 := rfl
  rw [h0] at hl
  cases hl
  omega

/-- C4 amended: for the empty row sequence and any inputs, `paginateCsv`
returns empty data with `totalRows = 0`, `totalPages = 0`,
`hasNext = hasPrev = false` and `page = 1` — never an error — but the `limit`
field echoes the (defaulted) argument unvalidated and the
`startIndex`/`endIndex` keys are absent. -/
theorem paginateCsv_empty_spec (page limit : JsInput) :
    paginateCsv [] page limit =
      { data := []
        pagination :=
          { page := 1, limit := if limit = .undef then .num 10 else limit
            totalRows := 0, totalPages := 0, hasNext := false, hasPrev := false
            startIndex := none, endIndex := none } } := by
  cases limit <;> rfl

theorem normPage_num (p : ℕ) (hp : 1 ≤ p) : normPage (.num (p : ℤ)) = (p : ℤ) := by
  have h0 : ((p : ℤ)) ≠ 0 := by omega
  simp only [normPage, parseIntJs, reduceCtorEq, if_false, h0]
  omega

theorem normLimit_num (l : ℕ) (hl : 1 ≤ l) : normLimit (.num (l : ℤ)) = (l : ℤ) := by
  have h0 : ((l : ℤ)) ≠ 0 := by omega
  simp only [normLimit, parseIntJs, reduceCtorEq, if_false, h0]
  omega

/-- The page-`i+1` slice at a positive limit `l` is chunk `i` of the data. -/
theorem paginateCsv_page_data (data : List Row) (i l : ℕ) (hl : 1 ≤ l) :
    (paginateCsv data (.num ((i : ℤ) + 1)) (.num (l : ℤ))).data =
      (data.drop (i * l)).take l := by
  cases data with
  | nil => simp [paginateCsv]
  | cons x rest =>
    rw [paginateCsv_nonempty (x :: rest) _ _ (by simp)]
    have hnp : normPage (.num ((i : ℤ) + 1)) = (i : ℤ) + 1 := by
      have := normPage_num (i + 1) (by omega)
      push_cast at this
      exact this
    have hnl := normLimit_num l hl
    simp only [hnp, hnl, add_sub_cancel_right]
    have hcast : (i : ℤ) * (l : ℤ) = ((i * l : ℕ) : ℤ) := by push_cast; ring
    rw [hcast, Int.toNat_natCast, List.take_eq_take]
    set T := (x :: rest).length with hT
    set m := i * l with hm
    have hdl : (List.drop m (x :: rest)).length = T - m := by
      rw [List.length_drop, hT]
    rw [hdl]
    omega

/-- Concatenating the first `k` chunks of size `l` recovers `take (k*l)`. -/
theorem flatten_take_chunks {α : Type} (xs : List α) (l : ℕ) :
    ∀ k : ℕ, ((List.range k).map (fun i => (xs.drop (i * l)).take l)).flatten =
      xs.take (k * l)
  | 0 => by simp
  | k + 1 => by
    rw [List.range_succ, List.map_append, List.flatten_append, flatten_take_chunks xs l k]
    simp only [List.map_cons, List.map_nil, List.flatten_cons, List.flatten_nil,
      List.append_nil]
    rw [Nat.succ_mul, List.take_add]

/-- C5: for any fixed limit `l ≥ 1`, every page's `data.length` is
`min(limit, totalRows - (page-1)*limit)` (truncated at 0), `totalPages` is
`ceil(totalRows / limit)`, and concatenating the `data` slices of pages
`1 .. totalPages` reconstructs the input row sequence exactly. -/
theorem paginateCsv_roundtrip (data : List Row) (l : ℕ) (hl : 1 ≤ l) :
    (∀ p : ℕ, 1 ≤ p →
      ((paginateCsv data (.num (p : ℤ)) (.num (l : ℤ))).data).length =
        min l (data.length - (p - 1) * l)) ∧
    (paginateCsv data (.num ((1 : ℕ) : ℤ)) (.num (l : ℤ))).pagination.totalPages =
      ⌈(data.length : ℚ) / (l : ℚ)⌉₊ ∧
    ((List.range
          ((paginateCsv data (.num ((1 : ℕ) : ℤ)) (.num (l : ℤ))).pagination.totalPages)).map
        (fun i : ℕ => (paginateCsv data (.num ((i : ℤ) + 1)) (.num (l : ℤ))).data)).flatten =
      data := by
  have hlen : ∀ p : ℕ, 1 ≤ p →
      ((paginateCsv data (.num (p : ℤ)) (.num (l : ℤ))).data).length =
        min l (data.length - (p - 1) * l) := by
    intro p hp
    have hsplit : ((p : ℤ)) = ((p - 1 : ℕ) : ℤ) + 1 := by push_cast [hp]; ring
    rw [hsplit, paginateCsv_page_data data (p - 1) l hl, List.length_take, List.length_drop]
  have htp : (paginateCsv data (.num ((1 : ℕ) : ℤ)) (.num (l : ℤ))).pagination.totalPages =
      ⌈(data.length : ℚ) / (l : ℚ)⌉₊ := by
    cases data with
    | nil => simp [paginateCsv]
    | cons x rest =>
      rw [paginateCsv_nonempty (x :: rest) _ _ (by simp), normLimit_num l hl]
      simp only [Int.toNat_natCast]
      exact nat_ceil_div_eq (x :: rest).length l (by omega)
  refine ⟨hlen, htp, ?_⟩
  rw [htp]
  have hmap : ∀ i ∈ List.range ⌈(data.length : ℚ) / (l : ℚ)⌉₊,
      (paginateCsv data (.num ((i : ℤ) + 1)) (.num (l : ℤ))).data =
        (data.drop (i * l)).take l := fun i _ => paginateCsv_page_data data i l hl
  rw [List.map_congr_left hmap, flatten_take_chunks]
  apply List.take_of_length_le
  rw [← nat_ceil_div_eq data.length l (by omega)]
  exact nat_ceil_div_mul_ge data.length l (by omega)

/-- Witness for C5: three rows at limit 2 round-trip across their two
pages. -/
theorem paginateCsv_roundtrip_witness :
    ((List.range
          ((paginateCsv [[("id", some "1")], [("id", some "2")], [("id", some "3")]]
            (.num ((1 : ℕ) : ℤ)) (.num ((2 : ℕ) : ℤ))).pagination.totalPages)).map
        (fun i : ℕ => (paginateCsv [[("id", some "1")], [("id", some "2")], [("id", some "3")]]
          (.num ((i : ℤ) + 1)) (.num ((2 : ℕ) : ℤ))).data)).flatten =
      [[("id", some "1")], [("id", some "2")], [("id", some "3")]] :=
  (paginateCsv_roundtrip [[("id", some "1")], [("id", some "2")], [("id", some "3")]] 2
    (by omega)).2.2

/-! ## Statistics lemmas -/

theorem foldl_add_eq_sum : ∀ (l : List ℚ) (a : ℚ), l.foldl (· + ·) a = a + l.sum
  | [], a => by simp
  | x :: xs, a => by
    simp [List.foldl_cons, List.sum_cons, foldl_add_eq_sum xs (a + x), add_assoc]

theorem foldl_min_mem (xs : List ℚ) : ∀ a : ℚ, xs.foldl min a = a ∨ xs.foldl min a ∈ xs := by
  induction xs with
  | nil => exact fun a => Or.inl rfl
  | cons x xs ih =>
    intro a
    rw [List.foldl_cons]
    rcases ih (min a x) with h | h
    · rcases le_total a x with hax | hxa
      · rw [h, min_eq_left hax]
        exact Or.inl rfl
      · rw [h, min_eq_right hxa]
        exact Or.inr (List.mem_cons_self x xs)
    · exact Or.inr (List.mem_cons_of_mem x h)

theorem foldl_min_le (xs : List ℚ) :
    ∀ a : ℚ, xs.foldl min a ≤ a ∧ ∀ x ∈ xs, xs.foldl min a ≤ x := by
  induction xs with
  | nil => exact fun a => ⟨le_refl a, by simp⟩
  | cons x xs ih =>
    intro a
    rw [List.foldl_cons]
    obtain ⟨h1, h2⟩ := ih (min a x)
    refine ⟨h1.trans (min_le_left a x), fun y hy => ?_⟩
    rcases List.mem_cons.mp hy with rfl | hy
    · exact h1.trans (min_le_right a y)
    · exact h2 y hy

theorem foldl_max_mem (xs : List ℚ) : ∀ a : ℚ, xs.foldl max a = a ∨ xs.foldl max a ∈ xs := by
  induction xs with
  | nil => exact fun a => Or.inl rfl
  | cons x xs ih =>
    intro a
    rw [List.foldl_cons]
    rcases ih (max a x) with h | h
    · rcases le_total a x with hax | hxa
      · rw [h, max_eq_right hax]
        exact Or.inr (List.mem_cons_self x xs)
      · rw [h, max_eq_left hxa]
        exact Or.inl rfl
    · exact Or.inr (List.mem_cons_of_mem x h)

theorem foldl_max_ge (xs : List ℚ) :
    ∀ a : ℚ, a ≤ xs.foldl max a ∧ ∀ x ∈ xs, x ≤ xs.foldl max a := by
  induction xs with
  | nil => exact fun a => ⟨le_refl a, by simp⟩
  | cons x xs ih =>
    intro a
    rw [List.foldl_cons]
    obtain ⟨h1, h2⟩ := ih (max a x)
    refine ⟨(le_max_left a x).trans h1, fun y hy => ?_⟩
    rcases List.mem_cons.mp hy with rfl | hy
    · exact (le_max_right a y).trans h1
    · exact h2 y hy

/-- `Math.min(...values)` of a non-empty list is a member and a lower
bound. -/
theorem listMinQ_spec (l : List ℚ) (hl : l ≠ []) :
    listMinQ l ∈ l ∧ ∀ x ∈ l, listMinQ l ≤ x := by
  cases l with
  | nil => exact absurd rfl hl
  | cons x xs =>
    rw [listMinQ]
    obtain ⟨h1, h2⟩ := foldl_min_le xs x
    refine ⟨?_, fun y hy => ?_⟩
    · rcases foldl_min_mem xs x with h | h
      · rw [h]; exact List.mem_cons_self x xs
      · exact List.mem_cons_of_mem x h
    · rcases List.mem_cons.mp hy with rfl | hy
      · exact h1
      · exact h2 y hy

/-- `Math.max(...values)` of a non-empty list is a member and an upper
bound. -/
theorem listMaxQ_spec (l : List ℚ) (hl : l ≠ []) :
    listMaxQ l ∈ l ∧ ∀ x ∈ l, x ≤ listMaxQ l := by
  cases l with
  | nil => exact absurd rfl hl
  | cons x xs =>
    rw [listMaxQ]
    obtain ⟨h1, h2⟩ := foldl_max_ge xs x
    refine ⟨?_, fun y hy => ?_⟩
    · rcases foldl_max_mem xs x with h | h
      · rw [h]; exact List.mem_cons_self x xs
      · exact List.mem_cons_of_mem x h
    · rcases List.mem_cons.mp hy with rfl | hy
      · exact h1
      · exact h2 y hy

/-- Association-list lookup over the per-column entries of
`getColumnStats`. -/
theorem lookup_filterMap_stats (f : String → Option ColStats) :
    ∀ (L : List String) (c : String),
      (L.filterMap (fun a => (f a).map fun st => (a, st))).lookup c =
        if c ∈ L then f c else none := by
  intro L
  induction L with
  | nil => intro c; simp
  | cons a L ih =>
    intro c
    rcases hfa : f a with _ | st
    · rw [List.filterMap_cons]
      simp only [hfa, Option.map_none']
      rw [ih c]
      by_cases hca : c = a
      · subst hca
        simp [hfa]
      · simp [hca]
    · rw [List.filterMap_cons]
      simp only [hfa, Option.map_some']
      by_cases hca : c = a
      · subst hca
        simp [List.lookup, hfa]
      · simp only [List.lookup, beq_eq_false_iff_ne.mpr hca]
        rw [ih c]
        simp [hca]

/-- The per-column record of `getColumnStats`, characterised against the
ascending-sorted copy of the column's numeric values. -/
theorem statsFor_spec (data : List Row) (c : String) (hne : numericValues data c ≠ []) :
    ∃ (sorted : List ℚ) (st : ColStats),
      sorted.Perm (numericValues data c) ∧ sorted.Sorted (· ≤ ·) ∧
      statsFor data c = some st ∧
      st.count = (numericValues data c).length ∧
      st.sum = (numericValues data c).sum ∧
      st.mean = round2 ((numericValues data c).sum / ((numericValues data c).length : ℚ)) ∧
      st.median = round2 (if sorted.length % 2 = 0 then
          (sorted.getD (sorted.length / 2 - 1) 0 + sorted.getD (sorted.length / 2) 0) / 2
        else sorted.getD (sorted.length / 2) 0) ∧
      st.min ∈ numericValues data c ∧ (∀ x ∈ numericValues data c, st.min ≤ x) ∧
      st.max ∈ numericValues data c ∧ (∀ x ∈ numericValues data c, x ≤ st.max) ∧
      st.range = st.max - st.min := by
  have hem : (numericValues data c).isEmpty = false := by
    cases hv2 : numericValues data c with
    | nil => exact absurd hv2 hne
    | cons a l => rfl
  have hstats : statsFor data c = some (statsRecord (numericValues data c)) := by
    rw [statsFor]
    simp only [hem, Bool.false_eq_true, if_false]
  set values := numericValues data c with hv
  set sorted := values.insertionSort (· ≤ ·) with hs
  have hperm : sorted.Perm values := List.perm_insertionSort _ _
  have hsorted : sorted.Sorted (· ≤ ·) := List.sorted_insertionSort _ _
  have hsne : sorted ≠ [] := by
    intro h
    rw [h] at hperm
    exact hne (List.Perm.nil_eq hperm).symm
  obtain ⟨hminmem, hminle⟩ := listMinQ_spec sorted hsne
  obtain ⟨hmaxmem, hmaxle⟩ := listMaxQ_spec sorted hsne
  have hsum : values.foldl (· + ·) 0 = values.sum := by
    rw [foldl_add_eq_sum values 0, zero_add]
  refine ⟨sorted, statsRecord values, hperm, hsorted, hstats, rfl, hsum, ?_, ?_,
    hperm.mem_iff.mp hminmem, fun x hx => hminle x (hperm.mem_iff.mpr hx),
    hperm.mem_iff.mp hmaxmem, fun x hx => hmaxle x (hperm.mem_iff.mpr hx), rfl⟩
  · show round2 (values.foldl (· + ·) 0 / (values.length : ℚ)) =
      round2 (values.sum / (values.length : ℚ))
    rw [hsum]
  · show round2 (if (sorted.length % 2 == 0) = true then
        ((sorted.getD (sorted.length / 2 - 1) 0) + sorted.getD (sorted.length / 2) 0) / 2
      else sorted.getD (sorted.length / 2) 0) =
      round2 (if sorted.length % 2 = 0 then
        (sorted.getD (sorted.length / 2 - 1) 0 + sorted.getD (sorted.length / 2) 0) / 2
      else sorted.getD (sorted.length / 2) 0)
    by_cases hpar : sorted.length % 2 = 0 <;> simp [hpar]

/-- C8: for non-empty data and a candidate column `c` (an explicitly
requested column, or a key of the first row when none are requested),
`getColumnStats` omits `c` entirely when it has no present numeric-parseable
value; otherwise its entry holds the count, the sum, the mean rounded to two
decimals, the median of the ascending-sorted values (average of the two
middle values at even count, middle value at odd count, rounded to two
decimals), the minimum, the maximum, and `range = max - min`.  The claim's
concrete four-row example is included. -/
theorem getColumnStats_spec (data : List Row) (cols : List String) (c : String)
    (hd : data ≠ [])
    (hc : c ∈ (if cols.isEmpty then (data.headD []).map Prod.fst else cols)) :
    (numericValues data c = [] → (getColumnStats data cols).lookup c = none) ∧
    (numericValues data c ≠ [] →
      ∃ (sorted : List ℚ) (st : ColStats),
        sorted.Perm (numericValues data c) ∧ sorted.Sorted (· ≤ ·) ∧
        (getColumnStats data cols).lookup c = some st ∧
        st.count = (numericValues data c).length ∧
        st.sum = (numericValues data c).sum ∧
        st.mean = round2 ((numericValues data c).sum / ((numericValues data c).length : ℚ)) ∧
        st.median = round2 (if sorted.length % 2 = 0 then
            (sorted.getD (sorted.length / 2 - 1) 0 + sorted.getD (sorted.length / 2) 0) / 2
          else sorted.getD (sorted.length / 2) 0) ∧
        st.min ∈ numericValues data c ∧ (∀ x ∈ numericValues data c, st.min ≤ x) ∧
        st.max ∈ numericValues data c ∧ (∀ x ∈ numericValues data c, x ≤ st.max) ∧
        st.range = st.max - st.min) ∧
    getColumnStats
        [[("v", some "1")], [("v", some "2")], [("v", some "3")], [("v", some "4")]] [] =
      [("v", (⟨4, 10, 5/2, 5/2, 1, 4, 3⟩ : ColStats))] := by
  have hlk : (getColumnStats data cols).lookup c = statsFor data c := by
    rw [getColumnStats]
    have hdem : data.isEmpty = false := by
      cases data with
      | nil => exact absurd rfl hd
      | cons x l => rfl
    rw [hdem]
    simp only [Bool.false_eq_true, if_false]
    rw [lookup_filterMap_stats (statsFor data) _ c, if_pos hc]
  refine ⟨fun hnil => ?_, fun hne => ?_, ?_⟩
  · rw [hlk, statsFor, hnil]
    rfl
  · obtain ⟨sorted, st, h1, h2, h3, hrest⟩ := statsFor_spec data c hne
    exact ⟨sorted, st, h1, h2, hlk.trans h3, hrest⟩
  · simp [getColumnStats, statsFor, statsRecord, numericValues, rowGet, jsStrToNum,
      parseSignedDec, parseDecBody, parseExpPart, digitsVal, jsWs, List.insertionSort,
      List.orderedInsert, listMinQ, listMaxQ, round2]
    norm_num

/-- Witness for C8: the claim's four-row example, where the stats of `v` are
`count=4, sum=10, mean=2.5, median=2.5, min=1, max=4, range=3`. -/
theorem getColumnStats_spec_witness :
    getColumnStats
        [[("v", some "1")], [("v", some "2")], [("v", some "3")], [("v", some "4")]] [] =
      [("v", (⟨4, 10, 5/2, 5/2, 1, 4, 3⟩ : ColStats))] :=
  (getColumnStats_spec
    [[("v", some "1")], [("v", some "2")], [("v", some "3")], [("v", some "4")]] [] "v"
    (by decide) (by decide)).2.2
